import Mathlib

/-!
Verification development for the social-content harvesting and bundling
pipeline (Instagram/Apify connector, Reddit public-JSON scraper, and the
orchestrating pipeline).  Python source files are shallowly embedded as
executable Lean definitions: dictionaries become insertion-ordered
association lists, network calls become explicit outcome functions
(`Except` values), and raised exceptions become `Except.error`.
-/

namespace IdentiVibe

/-! ### Insertion-ordered string-keyed dictionaries

Python `dict` preserves insertion order; we model dictionaries as
association lists.  `dlookup` is `d.get(k)`, `dset` is `d[k] = v` on an
existing key (updates in place, order preserved), and `ddGet` is the
`defaultdict(list)` read `d[k]`, which inserts an empty list at the end
when the key is absent. -/

def dlookup {β : Type} : List (String × β) → String → Option β
  | [], _ => none
  | (k', v) :: rest, k => if k' = k then some v else dlookup rest k

def dset {β : Type} : List (String × β) → String → β → List (String × β)
  | [], _, _ => []
  | (k', v') :: rest, k, v =>
      if k' = k then (k', v) :: rest else (k', v') :: dset rest k v

def ddGet (m : List (String × List String)) (k : String) :
    List String × List (String × List String) :=
  match dlookup m k with
  | some v => (v, m)
  | none => ([], m ++ [(k, [])])

/-- Keys of a dictionary, in insertion order. -/
def dkeys {β : Type} (m : List (String × β)) : List String := m.map Prod.fst

/-! ### Python string helpers -/

/-- Python `s.strip()`: remove leading and trailing whitespace. -/
def pyStrip (s : String) : String :=
  ⟨((s.data.dropWhile Char.isWhitespace).reverse.dropWhile
      Char.isWhitespace).reverse⟩

/-- Python `s.lower()`. -/
def pyLower (s : String) : String :=
  ⟨s.data.map Char.toLower⟩

/-! ### Python truthiness helpers -/

/-- Truthiness of an optional string value (`None` and `""` are falsy). -/
def truthyOpt : Option String → Bool
  | none => false
  | some s => s ≠ ""

/-- A Python `a or b or ...` chain over optional strings: the first truthy
value, or `none` when every link is falsy (any falsy final value is
observationally dead at every use site, which immediately tests truthiness). -/
def firstTruthy : List (Option String) → Option String
  | [] => none
  | v :: vs => if truthyOpt v then v else firstTruthy vs

/-! ## connectors/instagram/bundler.py — bundle_seed_comments -/

/-- One raw comment item from the Apify dataset; fields model the dictionary
keys read by `bundle_seed_comments`.  `nestedOwnerUsername` stands for
`comment.get("owner", {}).get("username")`. -/
structure Comment where
  ownerUsername : Option String
  username : Option String
  nestedOwnerUsername : Option String
  text : Option String
  body : Option String
  content : Option String
deriving DecidableEq

/-- Username resolution in `bundle_seed_comments`:
`comment.get("ownerUsername") or comment.get("username") or
comment.get("owner", {}).get("username")`, with the subsequent
`if not username: continue` folded in (`none` means the item is skipped). -/
def resolve_username (c : Comment) : Option String :=
  firstTruthy [c.ownerUsername, c.username, c.nestedOwnerUsername]

/-- Text resolution in `bundle_seed_comments`:
`(comment.get("text") or comment.get("body") or comment.get("content") or
"").strip()`; the caller skips the item when the result is `""`. -/
def resolve_text (c : Comment) : String :=
  pyStrip ((firstTruthy [c.text, c.body, c.content]).getD "")

/-- The body of the `for comment in comments` loop of `bundle_seed_comments`,
threading the `user_comments` defaultdict.  Lines 77–108 of the source:
skip on missing username, skip on empty text, cap check (which performs the
defaultdict access and hence may insert the key), dedupe check, append. -/
def bundleStep (maxPer : Nat) (dedupe : Bool)
    (m : List (String × List String)) (c : Comment) :
    List (String × List String) :=
  match resolve_username c with
  | none => m
  | some u =>
    if resolve_text c = "" then m
    else if maxPer ≤ (ddGet m u).1.length then (ddGet m u).2
    else if dedupe ∧ resolve_text c ∈ (ddGet m u).1 then (ddGet m u).2
    else dset (ddGet m u).2 u ((ddGet m u).1 ++ [resolve_text c])

/-- `bundle_seed_comments(comments, max_comments_per_user, deduplicate)`:
the item loop folded over the comment list, starting from an empty dict. -/
def bundle_seed_comments (comments : List Comment) (maxPer : Nat)
    (dedupe : Bool) : List (String × List String) :=
  comments.foldl (bundleStep maxPer dedupe) []

/-! ## connectors/instagram/bundler.py — sample_usernames

`random.sample(eligible_users, actual_sample)` is modelled as
selection without replacement driven by an abstract random stream
`rng : Nat → Nat` (the value drawn at each step, reduced modulo the number
of remaining candidates); this realizes exactly the contract of
`random.sample`: `k` draws, each removing the chosen element. -/

def sampleAux (rng : Nat → Nat) : Nat → List String → Nat → List String
  | _, _, 0 => []
  | _, [], _ + 1 => []
  | step, p :: ps, k + 1 =>
    let i : Fin (p :: ps).length :=
      ⟨rng step % (p :: ps).length, Nat.mod_lt _ (Nat.succ_pos _)⟩
    (p :: ps).get i :: sampleAux rng (step + 1) ((p :: ps).eraseIdx i) k

/-- `eligible_users` comprehension inside `sample_usernames`: usernames
whose comment list meets the `min_comments` threshold, in dict order. -/
def eligible_users (m : List (String × List String)) (minComments : Nat) :
    List String :=
  (m.filter fun p => minComments ≤ p.2.length).map Prod.fst

/-- `sample_usernames(user_comments, sample_size, min_comments)`:
filter the eligible users, then `random.sample` exactly
`min(sample_size, len(eligible_users))` of them. -/
def sample_usernames (rng : Nat → Nat) (m : List (String × List String))
    (sampleSize : Nat) (minComments : Nat) : List String :=
  let eligible := eligible_users m minComments
  sampleAux rng 0 eligible (min sampleSize eligible.length)

/-! ## connectors/instagram/bundler.py — availability, captions, enrichment -/

/-- A JSON field value as read by `extract_captions`: absent, a string, or
an object (modelled by its string-valued entries). -/
inductive JVal : Type
  | missing
  | jstr (s : String)
  | jobj (entries : List (String × String))
deriving DecidableEq

/-- Python truthiness of a JSON value: `None` is falsy, a string is truthy
iff non-empty, a dict is truthy iff non-empty. -/
def JVal.truthy : JVal → Bool
  | .missing => false
  | .jstr s => s ≠ ""
  | .jobj es => es ≠ []

/-- A Python `or` chain over JSON values ending in `or ""`. -/
def firstTruthyJ : List JVal → JVal
  | [] => .jstr ""
  | v :: vs => if v.truthy then v else firstTruthyJ vs

/-- One item of a user-posts scrape result, with the fields read by
`is_private_or_unavailable`, `extract_captions` and `extract_post_urls`.
`errorVal` is the truthiness of `item.get("error")`; `errorMessage` is
`str(item.get("errorMessage", ""))`. -/
structure Post where
  isPrivate : Bool
  errorVal : Bool
  errorMessage : String
  caption : JVal
  text : JVal
  description : JVal
  url : Option String
  postUrl : Option String
  shortCode : Option String
deriving DecidableEq

/-- Python `needle in hay` on strings (substring containment). -/
def strContains (hay needle : String) : Bool :=
  decide (needle.data <:+: hay.data)

/-- `is_private_or_unavailable(user_scrape_result)`: empty result, an
explicit `isPrivate` flag, a truthy `error` field, or an error message
containing "private" or "forbidden" (lower-cased). -/
def is_private_or_unavailable (result : List Post) : Bool :=
  if result = [] then true
  else result.any fun item =>
    item.isPrivate || item.errorVal ||
      (strContains (pyLower item.errorMessage) "private" ||
       strContains (pyLower item.errorMessage) "forbidden")

/-- The per-post caption computation of `extract_captions`:
`post.get("caption") or post.get("text") or post.get("description") or ""`,
unwrapping a dict value through its `"text"` entry, then
`caption.strip() if caption else ""`. -/
def captionOf (p : Post) : String :=
  let c := firstTruthyJ [p.caption, p.text, p.description]
  let s : String :=
    match c with
    | .jobj es => (dlookup es "text").getD ""
    | .jstr s => s
    | .missing => ""
  if s = "" then "" else pyStrip s

/-- `extract_captions(posts)`: collect the non-empty stripped captions, in
order. -/
def extract_captions (posts : List Post) : List String :=
  posts.filterMap fun p =>
    let s := captionOf p
    if s = "" then none else some s

/-- A final user bundle `{"username": ..., "comments": ..., "captions": ...}`. -/
structure Bundle where
  username : String
  comments : List String
  captions : List String
deriving DecidableEq

/-- The loop body of `enrich_with_captions` for one username: the `try`
block's fetch (whose raised exception is the `.error` case), the
private/unavailable check, caption extraction and the empty-captions check;
`none` means the user is skipped (`skipped_count += 1`). -/
def enrichStep {ε : Type} (fetch : String → Except ε (List Post))
    (userComments : List (String × List String)) (u : String) :
    Option Bundle :=
  match fetch u with
  | .error _ => none
  | .ok posts =>
    if is_private_or_unavailable posts then none
    else
      let captions := extract_captions posts
      if captions = [] then none
      else some ⟨u, (dlookup userComments u).getD [], captions⟩

/-- The `for i, username in enumerate(sampled_usernames, 1)` loop of
`enrich_with_captions`, threading the `(bundles, skipped_count)` pair. -/
def enrichFold {ε : Type} (fetch : String → Except ε (List Post))
    (userComments : List (String × List String)) :
    List String → List Bundle × Nat → List Bundle × Nat
  | [], acc => acc
  | u :: rest, acc =>
    enrichFold fetch userComments rest
      (match enrichStep fetch userComments u with
       | some b => (acc.1 ++ [b], acc.2)
       | none => (acc.1, acc.2 + 1))

/-- `enrich_with_captions(client, sampled_usernames, user_comments, ...)`:
the loop starting from `([], 0)`; `fetch` stands for
`client.scrape_user_posts(username, results_limit=...)` (the results limit
is folded into `fetch`). -/
def enrich_with_captions {ε : Type} (fetch : String → Except ε (List Post))
    (sampled : List String) (userComments : List (String × List String)) :
    List Bundle × Nat :=
  enrichFold fetch userComments sampled ([], 0)

/-! ## instagram_scraper.py — scrape_instagram pipeline -/

/-- `extract_post_urls(posts)`:
`post.get("url") or post.get("postUrl") or (post.get("shortCode") and
f"https://www.instagram.com/p/{shortCode}/")`, appended when truthy. -/
def extract_post_urls (posts : List Post) : List String :=
  posts.filterMap fun p =>
    let fromShort : Option String :=
      match p.shortCode with
      | none => none
      | some sc =>
          if sc = "" then some ""
          else some ("https://www.instagram.com/p/" ++ sc ++ "/")
    firstTruthy [p.url, p.postUrl, fromShort]

/-- The remote world seen by `scrape_instagram` through its `ApifyClient`:
the seed profile-posts scrape, the seed-posts comments scrape, the per-user
posts scrape, and the random stream feeding `sample_usernames`.  Numeric
limits (`posts`, `comments`, `user_posts`) are folded into these functions;
`.error` is a raised exception carrying its message. -/
structure IgWorld where
  profilePosts : Except String (List Post)
  postComments : List String → Except String (List Comment)
  userPosts : String → Except String (List Post)
  rng : Nat → Nat

/-- `scrape_instagram(seed_handle, ...)` (lines 38–147): steps 1–5 with the
three empty-content guards (`raise ApifyError(...)`), bundling with
`deduplicate=True`, sampling with the default `min_comments=1`, enrichment,
and the final output formatting. -/
def scrape_instagram (w : IgWorld) (seed : String) (sampleSize : Nat)
    (maxCommentsPerUser : Nat) : Except String (List Bundle) :=
  match w.profilePosts with
  | .error e => .error e
  | .ok seedPosts =>
    if seedPosts = [] then
      .error ("No posts found for seed account @" ++ seed)
    else
      let postUrls := extract_post_urls seedPosts
      if postUrls = [] then .error "No post URLs extracted from seed account"
      else
        match w.postComments postUrls with
        | .error e => .error e
        | .ok allComments =>
          if allComments = [] then .error "No comments found on seed posts"
          else
            let userComments :=
              bundle_seed_comments allComments maxCommentsPerUser true
            if userComments = [] then
              .error "No valid comments found after bundling"
            else
              let sampled := sample_usernames w.rng userComments sampleSize 1
              let enriched := enrich_with_captions w.userPosts sampled userComments
              .ok (enriched.1.map fun b => ⟨b.username, b.comments, b.captions⟩)

/-! ## Identify/Scrapers/Reddit/RedditScraper.py — the `_get` retry loop

`RedditScraper._get` (lines 47–74): a `while True` loop that issues one
HTTP request per iteration (`attempt` is incremented at the top), retries
on {429, 500, 502, 503, 504} and on the auth-gate statuses {401, 403}
until `attempt > self.max_retries`, then re-raises via
`raise_for_status()`; any other non-success status raises immediately and
a success returns the JSON body.  The rate-limit sleep and the backoff
sleep have no observable effect on the result and are elided. -/

/-- Statuses of the first retry branch: `(429, 500, 502, 503, 504)`. -/
def retryStatus (s : Nat) : Bool :=
  s = 429 || s = 500 || s = 502 || s = 503 || s = 504

/-- Statuses of the second retry branch: `(401, 403)`. -/
def authGateStatus (s : Nat) : Bool := s = 401 || s = 403

/-- `requests.Response.raise_for_status()` raises exactly for 4xx/5xx. -/
def raisesForStatus (s : Nat) : Bool := 400 ≤ s && s < 600

/-- One HTTP response: a status code and a parsed JSON body. -/
structure Resp (α : Type) where
  status : Nat
  body : α

/-- The `_get` loop from a given `attempt` value; `resp k` is the response
observed by the `k`-th issued request (1-based).  The returned `Nat` is the
total number of HTTP requests performed; `Except.error s` is the
`HTTPError` raised by `raise_for_status()` for the status `s`. -/
def getLoop {α : Type} (maxRetries : Nat) (resp : Nat → Resp α)
    (attempt : Nat) : Except Nat α × Nat :=
  let a := attempt + 1
  let r := resp a
  if retryStatus r.status || authGateStatus r.status then
    if maxRetries < a then (.error r.status, a)
    else getLoop maxRetries resp a
  else if raisesForStatus r.status then (.error r.status, a)
  else (.ok r.body, a)
termination_by maxRetries + 1 - attempt
decreasing_by omega

/-- `RedditScraper._get(path, params)` against the response stream `resp`
for that URL; `attempt` starts at 0. -/
def reddit_get {α : Type} (maxRetries : Nat) (resp : Nat → Resp α) :
    Except Nat α × Nat :=
  getLoop maxRetries resp 0

/-! ## RedditScraper.py — discovery (`get_payload`, step 1)

Each `_get`-backed fetch is abstracted by its outcome: `.error` when the
underlying `_get` raised (retries exhausted or a non-retryable status),
`.ok` with parsed data otherwise.  `(p or {}).get("data", {})` of a post
listing child is modelled by a `PEntry` holding the two fields read from
it; a missing/None child or missing `data` yields `none` fields. -/

/-- One child of a subreddit listing: `pdata.get("id")` and
`pdata.get("author")` (non-string authors are folded into `none`,
matching `_safe_author`'s `isinstance` test). -/
structure PEntry where
  id : Option String
  author : Option String
deriving DecidableEq

/-- One child of a post's comment listing: `cdata.get("author")`. -/
structure CEntry where
  author : Option String
deriving DecidableEq

/-- The body of a `/comments/{post_id}.json` response as inspected by
`_post_comments`: `wellFormed` when `isinstance(data, list) and
len(data) >= 2` with the extracted `data[1]["data"]["children"]`, and
`malformed` otherwise. -/
inductive CommentsJson : Type
  | wellFormed (children : List CEntry)
  | malformed
deriving DecidableEq

/-- The value `_post_comments` returns for a body (zero children when the
shape is unexpected). -/
def parseComments : CommentsJson → List CEntry
  | .wellFormed cs => cs
  | .malformed => []

/-- `RedditScraper._safe_author(author)`: `None` for falsy/non-string
values and for the case-insensitive `"[deleted]"` sentinel. -/
def safe_author (a? : Option String) : Option String :=
  match a? with
  | none => none
  | some a =>
    if a = "" then none
    else if pyLower a = "[deleted]" then none
    else some a

/-- The remote dataset seen by discovery: the two seed listings
(`/hot.json`, `/new.json`, limits folded in) and the per-post comments
fetch; `.error` is an exception raised by the underlying `_get`. -/
structure RedditRemote where
  hot : Except Unit (List PEntry)
  new : Except Unit (List PEntry)
  comments : String → Except Unit CommentsJson

/-- The inner `for c in comments` loop of `get_payload`: append each fresh
safe author, breaking as soon as `max_users` is reached. -/
def commentScan (maxU : Nat) : List CEntry → List String → List String
  | [], acc => acc
  | c :: cs, acc =>
    match safe_author c.author with
    | some a =>
      if a ∈ acc then commentScan maxU cs acc
      else if maxU ≤ (acc ++ [a]).length then acc ++ [a]
      else commentScan maxU cs (acc ++ [a])
    | none => commentScan maxU cs acc

/-- Outcome of one iteration of the `for p in posts` loop: `halt` is a
`break` out of the loop carrying the final username list, `cont` continues
with the updated accumulator. -/
inductive StepOut : Type
  | halt (l : List String)
  | cont (acc : List String)
deriving DecidableEq

/-- The comments half of one outer-loop iteration (lines 141–152):
`if not pid: continue`, the comments fetch (whose raised exception
propagates out of the whole walk), the inner comment scan, and the
trailing `max_users` break. -/
def discComments (cf : String → Except Unit CommentsJson) (maxU : Nat)
    (pid? : Option String) (acc : List String) : Except Unit StepOut :=
  match pid? with
  | none => .ok (.cont acc)
  | some pid =>
    match cf pid with
    | .error _ => .error ()
    | .ok cj =>
      if maxU ≤ (commentScan maxU (parseComments cj) acc).length then
        .ok (.halt (commentScan maxU (parseComments cj) acc))
      else .ok (.cont (commentScan maxU (parseComments cj) acc))

/-- One full iteration of the `for p in posts` loop (lines 130–155): the
post author is admitted first (with an immediate `max_users` break), then
the post's comments are visited.  The seen-set is represented by the
accumulated username list itself (the source keeps `seen` and `usernames`
in lockstep). -/
def discStep (cf : String → Except Unit CommentsJson) (maxU : Nat)
    (p : PEntry) (acc : List String) : Except Unit StepOut :=
  match safe_author p.author with
  | some a =>
    if a ∈ acc then discComments cf maxU p.id acc
    else if maxU ≤ (acc ++ [a]).length then .ok (.halt (acc ++ [a]))
    else discComments cf maxU p.id (acc ++ [a])
  | none => discComments cf maxU p.id acc

/-- The `for p in posts` loop itself. -/
def discGo (cf : String → Except Unit CommentsJson) (maxU : Nat) :
    List PEntry → List String → Except Unit (List String)
  | [], acc => .ok acc
  | p :: ps, acc =>
    match discStep cf maxU p acc with
    | .error e => .error e
    | .ok (.halt l) => .ok l
    | .ok (.cont acc') => discGo cf maxU ps acc'

/-- Step 1 of `get_payload`: `posts = hot + new` (either fetch raising
aborts the call), then the discovery walk starting from empty state. -/
def discoverUsers (r : RedditRemote) (maxU : Nat) :
    Except Unit (List String) :=
  match r.hot with
  | .error _ => .error ()
  | .ok hs =>
    match r.new with
    | .error _ => .error ()
    | .ok ns => discGo r.comments maxU (hs ++ ns) []

/-! ## RedditScraper.py — per-user global activity (`get_payload`, step 2) -/

/-- One child of `/user/{name}/comments.json`: the `subreddit` and `body`
fields read from `(item or {}).get("data", {})`. -/
structure UComment where
  subreddit : Option String
  body : Option String
deriving DecidableEq

/-- One child of `/user/{name}/submitted.json`: `subreddit`, `title`,
`selftext`. -/
structure UPost where
  subreddit : Option String
  title : Option String
  selftext : Option String
deriving DecidableEq

/-- The per-user remote endpoints of step 2; `.error` is an exception
raised by the underlying `_get` (limits folded in). -/
structure UserRemote where
  userComments : String → Except Unit (List UComment)
  userPosts : String → Except Unit (List UPost)

/-- `user_obj["global_activity"]`. -/
structure GlobalActivity where
  recent_comments : List String
  recent_posts : List String
  subreddit_histogram : List (String × Nat)
deriving DecidableEq

/-- The initial (and exception-path) empty activity. -/
def emptyActivity : GlobalActivity := ⟨[], [], []⟩

/-- `sub_freq[sr] = sub_freq.get(sr, 0) + 1` on an insertion-ordered dict. -/
def bumpFreq (freq : List (String × Nat)) (sr : String) :
    List (String × Nat) :=
  match dlookup freq sr with
  | some n => dset freq sr (n + 1)
  | none => freq ++ [(sr, 1)]

/-- `RedditScraper._top_histogram(freq, top_k)`: stable sort by count
descending (Python `sorted(..., reverse=True)` keeps insertion order on
ties, as does `mergeSort`), then the first `top_k` entries. -/
def top_histogram (freq : List (String × Nat)) (topK : Nat) :
    List (String × Nat) :=
  (freq.mergeSort fun a b => b.2 ≤ a.2).take topK

/-- The Python string `title if not selftext else f"{title}\n{selftext}"`
guarded by `if title:`. -/
def postText (p : UPost) : Option String :=
  match p.title with
  | none => none
  | some t =>
    if t = "" then none
    else
      some (match p.selftext with
            | none => t
            | some st => if st = "" then t else t ++ "\n" ++ st)

/-- The `try`-block computation of step 2 for one user, given both fetch
results: subreddit histogram over comments then posts, recent comment
bodies, recent post texts, each cut to its limit. -/
def activityOf (cs : List UComment) (ps : List UPost)
    (climit plimit : Nat) : GlobalActivity :=
  let f1 := cs.foldl
    (fun f c =>
      match c.subreddit with
      | some sr => if sr = "" then f else bumpFreq f sr
      | none => f) []
  let f2 := ps.foldl
    (fun f p =>
      match p.subreddit with
      | some sr => if sr = "" then f else bumpFreq f sr
      | none => f) f1
  let recentComments := cs.filterMap fun c =>
    match c.body with
    | some b => if b = "" then none else some b
    | none => none
  let recentPosts := ps.filterMap postText
  ⟨recentComments.take climit, recentPosts.take plimit, top_histogram f2 12⟩

/-- One entry of the `users` output list. -/
structure RUser where
  username : String
  global_activity : GlobalActivity
deriving DecidableEq

/-- The body of the `for uname in usernames` loop of step 2: `user_obj` is
created with empty activity, and the whole `try` block (both fetches and
the activity computation) falls back to that empty activity on any raised
exception.  A failing comments fetch means the posts fetch never runs; the
result is the same empty activity either way. -/
def buildUser (ur : UserRemote) (climit plimit : Nat) (uname : String) :
    RUser :=
  match ur.userComments uname with
  | .error _ => ⟨uname, emptyActivity⟩
  | .ok cs =>
    match ur.userPosts uname with
    | .error _ => ⟨uname, emptyActivity⟩
    | .ok ps => ⟨uname, activityOf cs ps climit plimit⟩

/-- The payload returned by `get_payload` (the constant `platform` and
`note` fields are elided). -/
structure RPayload where
  source_subreddit : String
  users : List RUser
deriving DecidableEq

/-- `RedditScraper.get_payload(target_subreddit, ...)`: discovery (step 1)
followed by the per-user activity pass (step 2); an exception raised
during discovery propagates. -/
def get_payload (r : RedditRemote) (ur : UserRemote) (sub : String)
    (maxU climit plimit : Nat) : Except Unit RPayload :=
  match discoverUsers r maxU with
  | .error e => .error e
  | .ok names => .ok ⟨sub, names.map (buildUser ur climit plimit)⟩

/-! ## Identify/Scrapers/instagram/connectors/instagram/apify_client.py

The client's filesystem cache is modelled as a reliable keyed store
(`Cache`); `_cache_key` — the first 16 hex digits of the SHA-256 of the
canonical sorted-keys JSON dump of `{"actor": ..., "input": ...}` — is an
arbitrary deterministic function `ck` of the actor id and the input, which
is the only property the client relies on.  Each operation returns its
result together with the number of HTTP requests it issued. -/

/-- Python `s.startswith(pre)`. -/
def pyStartswith (s pre : String) : Bool :=
  pre.data.isPrefixOf s.data

/-- The characters after the first `':'`, i.e. `s.split(":", 1)[1]` when a
colon is present (the only way it is used). -/
def afterFirstColonAux : List Char → List Char
  | [] => []
  | c :: cs => if c = ':' then cs else afterFirstColonAux cs

/-- String version of `afterFirstColonAux`. -/
def afterFirstColon (s : String) : String :=
  ⟨afterFirstColonAux s.data⟩

/-- The cache directory: one entry per key (`{key}.json`). -/
def Cache (Item : Type) : Type := String → Option (List Item)

/-- `_save_cache(cache_key, items)`. -/
def cacheSave {Item : Type} (c : Cache Item) (k : String)
    (v : List Item) : Cache Item :=
  fun k' => if k' = k then some v else c k'

/-- Errors raised by the client: `ApifyRateLimitError`, a generic HTTP
error from `raise_for_status()`, a terminal run failure, the `max_wait`
timeout, and the cache-miss error of `get_dataset_items`. -/
inductive ApErr : Type
  | rateLimited
  | http (status : Nat)
  | jobFailed (st : String)
  | timeout
  | cacheMiss
deriving DecidableEq

/-- The `POST /acts/{actor_id}/runs` response: an HTTP status and the
`data.id` of the created run. -/
structure SubmitResp where
  status : Nat
  runId : String

/-- The remote Apify API as seen by one client: the run-creation endpoint,
the polling endpoint (`poll runId k` is the `k`-th status check, either an
HTTP error status or the `(status, defaultDatasetId)` pair), and the
dataset-items endpoint. -/
structure ApifyRemote (Item Inp : Type) where
  submit : String → Inp → SubmitResp
  poll : String → Nat → Except Nat (String × String)
  fetch : String → Option Nat → Nat → Except Nat (List Item)

/-- `ApifyClient.run_actor(actor_id, input_data, use_cache)` (lines
126–171): on a cache hit return the synthetic `"cached:"` handle with no
network call; otherwise one POST, raising `ApifyRateLimitError` on 429 and
`HTTPError` on other non-2xx. -/
def run_actor {Item Inp : Type} (ck : String → Inp → String)
    (rm : ApifyRemote Item Inp) (cache : Cache Item) (actorId : String)
    (inp : Inp) (useCache : Bool) : Except ApErr String × Nat :=
  if useCache ∧ (cache (ck actorId inp)).isSome then
    (.ok ("cached:" ++ ck actorId inp), 0)
  else
    let r := rm.submit actorId inp
    if r.status = 429 then (.error .rateLimited, 1)
    else if raisesForStatus r.status then (.error (.http r.status), 1)
    else (.ok r.runId, 1)

/-- The polling loop of `wait_for_run`; the wall-clock `max_wait` deadline
is modelled as a poll budget (`fuel`), each poll being one GET spaced by
`poll_interval`. -/
def waitLoop (poll : Nat → Except Nat (String × String)) :
    Nat → Nat → Except ApErr String × Nat
  | _, 0 => (.error .timeout, 0)
  | k, fuel + 1 =>
    match poll k with
    | .error s => (.error (.http s), 1)
    | .ok (st, ds) =>
      if st = "SUCCEEDED" then (.ok ds, 1)
      else if st = "FAILED" ∨ st = "ABORTED" ∨ st = "TIMED-OUT" then
        (.error (.jobFailed st), 1)
      else
        let rest := waitLoop poll (k + 1) fuel
        (rest.1, rest.2 + 1)

/-- `ApifyClient.wait_for_run(run_id, ...)` (lines 173–221): a synthetic
cached handle is returned immediately; otherwise poll until a terminal
status or the deadline. -/
def wait_for_run {Item Inp : Type} (rm : ApifyRemote Item Inp)
    (runId : String) (fuel : Nat) : Except ApErr String × Nat :=
  if pyStartswith runId "cached:" then (.ok runId, 0)
  else waitLoop (rm.poll runId) 0 fuel

/-- Python `if limit:` over an optional int (`None` and `0` are falsy). -/
def truthyNat : Option Nat → Bool
  | none => false
  | some n => n ≠ 0

/-- `ApifyClient.get_dataset_items(dataset_id, limit, offset)` (lines
223–266): a `"cached:"` dataset id is resolved from the cache with list
slicing (`cached[offset:offset+limit]` or `cached[offset:]`), raising on a
cache miss; otherwise one GET. -/
def get_dataset_items {Item Inp : Type} (rm : ApifyRemote Item Inp)
    (cache : Cache Item) (datasetId : String) (limit : Option Nat)
    (offset : Nat) : Except ApErr (List Item) × Nat :=
  if pyStartswith datasetId "cached:" then
    match cache (afterFirstColon datasetId) with
    | some items =>
      if truthyNat limit then
        (.ok ((items.drop offset).take (limit.getD 0)), 0)
      else (.ok (items.drop offset), 0)
    | none => (.error .cacheMiss, 0)
  else
    match rm.fetch datasetId limit offset with
    | .error s => (.error (.http s), 1)
    | .ok items => (.ok items, 1)

/-- `ApifyClient.run_and_get_items(actor_id, input_data, use_cache)`
(lines 268–301): cache check, then `run_actor(use_cache=False)`,
`wait_for_run`, `get_dataset_items`, and `_save_cache` on success.
Returns the items, the updated cache, and the number of HTTP requests. -/
def run_and_get_items {Item Inp : Type} (ck : String → Inp → String)
    (rm : ApifyRemote Item Inp) (cache : Cache Item) (actorId : String)
    (inp : Inp) (useCache : Bool) (fuel : Nat) :
    Except ApErr (List Item) × Cache Item × Nat :=
  let key := ck actorId inp
  match (if useCache then cache key else none) with
  | some items => (.ok items, cache, 0)
  | none =>
    let rRun := run_actor ck rm cache actorId inp false
    match rRun.1 with
    | .error e => (.error e, cache, rRun.2)
    | .ok runId =>
      let rWait := wait_for_run rm runId fuel
      match rWait.1 with
      | .error e => (.error e, cache, rRun.2 + rWait.2)
      | .ok datasetId =>
        let rItems := get_dataset_items rm cache datasetId none 0
        match rItems.1 with
        | .error e => (.error e, cache, rRun.2 + rWait.2 + rItems.2)
        | .ok items =>
          let cache' := if useCache then cacheSave cache key items else cache
          (.ok items, cache', rRun.2 + rWait.2 + rItems.2)

/-! ## Dictionary lemmas -/

theorem dlookup_append {β : Type} (m m' : List (String × β)) (k : String) :
    dlookup (m ++ m') k =
      match dlookup m k with
      | some v => some v
      | none => dlookup m' k := by
  induction m with
  | nil => simp [dlookup]
  | cons p rest ih =>
    by_cases h : p.1 = k
    · simp [dlookup, h]
    · simpa [dlookup, h] using ih

theorem dlookup_append_left {β : Type} {m : List (String × β)} {k : String}
    {v : β} (h : dlookup m k = some v) (m' : List (String × β)) :
    dlookup (m ++ m') k = some v := by
  rw [dlookup_append, h]

theorem dlookup_dset_self {β : Type} {m : List (String × β)} {k : String}
    {w : β} (h : dlookup m k = some w) (v : β) :
    dlookup (dset m k v) k = some v := by
  induction m with
  | nil => simp [dlookup] at h
  | cons p rest ih =>
    obtain ⟨k0, w0⟩ := p
    by_cases hk : k0 = k
    · simp [dset, hk, dlookup]
    · simp only [dlookup, if_neg hk] at h
      simp only [dset, if_neg hk, dlookup]
      exact ih h

theorem dlookup_dset_of_ne {β : Type} (m : List (String × β))
    {k k' : String} (h : k' ≠ k) (v : β) :
    dlookup (dset m k' v) k = dlookup m k := by
  induction m with
  | nil => simp [dset]
  | cons p rest ih =>
    obtain ⟨k0, w0⟩ := p
    by_cases hk : k0 = k'
    · subst hk
      simp [dset, dlookup, h]
    · simp only [dset, if_neg hk, dlookup]
      by_cases hk2 : k0 = k <;> simp [hk2, ih]

theorem dset_of_absent {β : Type} {m : List (String × β)} {k : String}
    (h : dlookup m k = none) (v : β) : dset m k v = m := by
  induction m with
  | nil => rfl
  | cons p rest ih =>
    obtain ⟨k0, w0⟩ := p
    by_cases hk : k0 = k
    · simp [dlookup, hk] at h
    · simp only [dlookup, if_neg hk] at h
      simp [dset, hk, ih h]

theorem dkeys_dset {β : Type} (m : List (String × β)) (k : String) (v : β) :
    dkeys (dset m k v) = dkeys m := by
  induction m with
  | nil => rfl
  | cons p rest ih =>
    obtain ⟨k0, w0⟩ := p
    by_cases hk : k0 = k
    · simp [dset, dkeys, hk]
    · simp [dset, dkeys, hk] at ih ⊢
      simpa using ih

theorem dlookup_of_mem_nodup {β : Type} {m : List (String × β)}
    {p : String × β} (hmem : p ∈ m) (hkeys : (dkeys m).Nodup) :
    dlookup m p.1 = some p.2 := by
  induction m with
  | nil => simp at hmem
  | cons q rest ih =>
    obtain ⟨k0, w0⟩ := q
    simp only [dkeys, List.map_cons, List.nodup_cons] at hkeys
    rcases List.mem_cons.1 hmem with h | h
    · subst h
      simp [dlookup]
    · have hne : k0 ≠ p.1 := by
        intro he
        exact hkeys.1 (he ▸ (List.mem_map.2 ⟨p, h, rfl⟩))
      simpa [dlookup, hne] using ih h hkeys.2

/-! ## C5/C6/C10 helper lemmas about `bundleStep` -/

/-- An entry already at or above the cap is never touched by one step: the
defaultdict access leaves present keys alone and the cap check `continue`s
before any mutation. -/
theorem bundleStep_preserve_full {maxPer : Nat} {dedupe : Bool}
    {m : List (String × List String)} {u : String} {L : List String}
    (c : Comment) (hL : dlookup m u = some L) (hfull : maxPer ≤ L.length) :
    dlookup (bundleStep maxPer dedupe m c) u = some L := by
  unfold bundleStep
  split
  · exact hL
  · rename_i u' _
    split
    · exact hL
    · by_cases heq : u' = u
      · subst heq
        have hget : ddGet m u' = (L, m) := by simp [ddGet, hL]
        rw [hget]
        simp only [if_pos hfull]
        exact hL
      · cases hcur : dlookup m u' with
        | some v =>
          have hget : ddGet m u' = (v, m) := by simp [ddGet, hcur]
          rw [hget]
          split
          · exact hL
          · split
            · exact hL
            · rw [dlookup_dset_of_ne m heq]; exact hL
        | none =>
          have hget : ddGet m u' = ([], m ++ [(u', [])]) := by
            simp [ddGet, hcur]
          have hL1 : dlookup (m ++ [(u', [])]) u = some L :=
            dlookup_append_left hL _
          rw [hget]
          split
          · exact hL1
          · split
            · exact hL1
            · rw [dlookup_dset_of_ne _ heq]; exact hL1

/-- One step keeps every entry within the per-author cap. -/
theorem bundleStep_bound {maxPer : Nat} {dedupe : Bool}
    {m : List (String × List String)} (c : Comment)
    (hm : ∀ k L, dlookup m k = some L → L.length ≤ maxPer) :
    ∀ k L, dlookup (bundleStep maxPer dedupe m c) k = some L →
      L.length ≤ maxPer := by
  unfold bundleStep
  split
  · exact hm
  · rename_i u' _
    split
    · exact hm
    · cases hcur : dlookup m u' with
      | some v =>
        have hget : ddGet m u' = (v, m) := by simp [ddGet, hcur]
        rw [hget]
        split
        · exact hm
        · rename_i hcap
          split
          · exact hm
          · intro k L h0
            by_cases hk : k = u'
            · subst hk
              rw [dlookup_dset_self hcur] at h0
              cases h0
              have hlt : v.length < maxPer := Nat.lt_of_not_le (by simpa using hcap)
              show ((v, m).1 ++ [resolve_text c]).length ≤ maxPer
              simpa using hlt
            · rw [dlookup_dset_of_ne m (fun he => hk he.symm)] at h0
              exact hm k L h0
      | none =>
        have hget : ddGet m u' = ([], m ++ [(u', [])]) := by
          simp [ddGet, hcur]
        have hm1 : ∀ k L, dlookup (m ++ [(u', [])]) k = some L →
            L.length ≤ maxPer := by
          intro k L h0
          rw [dlookup_append] at h0
          cases hc : dlookup m k with
          | some v0 => rw [hc] at h0; cases h0; exact hm k _ hc
          | none =>
            rw [hc] at h0
            by_cases hk : u' = k <;> simp [dlookup, hk] at h0
            subst h0; simp
        have hlook : dlookup (m ++ [(u', [])]) u' = some [] := by
          rw [dlookup_append, hcur]
          simp [dlookup]
        rw [hget]
        split
        · exact hm1
        · rename_i hcap
          split
          · exact hm1
          · intro k L h0
            by_cases hk : k = u'
            · subst hk
              rw [dlookup_dset_self hlook] at h0
              cases h0
              have h1 : maxPer ≠ 0 := by simpa using hcap
              show ((([] : List String), m ++ [(k, [])]).1 ++
                [resolve_text c]).length ≤ maxPer
              simp only [List.nil_append, List.length_singleton]
              omega
            · rw [dlookup_dset_of_ne _ (fun he => hk he.symm)] at h0
              exact hm1 k L h0

theorem bundleFold_bound (maxPer : Nat) (dedupe : Bool) :
    ∀ (items : List Comment) (m : List (String × List String)),
      (∀ k L, dlookup m k = some L → L.length ≤ maxPer) →
      ∀ k L, dlookup (items.foldl (bundleStep maxPer dedupe) m) k = some L →
        L.length ≤ maxPer := by
  intro items
  induction items with
  | nil => intro m hm; simpa using hm
  | cons c rest ih =>
    intro m hm
    exact ih (bundleStep maxPer dedupe m c) (bundleStep_bound c hm)

theorem bundleFold_preserve_full (maxPer : Nat) (dedupe : Bool) :
    ∀ (items : List Comment) (m : List (String × List String)) (u : String)
      (L : List String),
      dlookup m u = some L → maxPer ≤ L.length →
      dlookup (items.foldl (bundleStep maxPer dedupe) m) u = some L := by
  intro items
  induction items with
  | nil => intro m u L hL _; simpa using hL
  | cons c rest ih =>
    intro m u L hL hfull
    exact ih _ u L (bundleStep_preserve_full c hL hfull) hfull

/-- Claim C5: for every input item sequence, every `maxPerUser` and every
dedupe setting, each per-author list of the bundle has length at most
`maxPerUser`; and once an author's list has reached `maxPerUser` on a
prefix of the input, later items never change it (first-seen wins). -/
theorem bundle_per_author_cap (maxPer : Nat) (dedupe : Bool) :
    (∀ (items : List Comment) (u : String) (L : List String),
       dlookup (bundle_seed_comments items maxPer dedupe) u = some L →
       L.length ≤ maxPer)
    ∧ (∀ (pre post : List Comment) (u : String) (L : List String),
       dlookup (bundle_seed_comments pre maxPer dedupe) u = some L →
       maxPer ≤ L.length →
       dlookup (bundle_seed_comments (pre ++ post) maxPer dedupe) u = some L) := by
  constructor
  · intro items u L h
    exact bundleFold_bound maxPer dedupe items []
      (by intro k L0 h0; simp [dlookup] at h0) u L h
  · intro pre post u L hL hfull
    unfold bundle_seed_comments at *
    rw [List.foldl_append]
    exact bundleFold_preserve_full maxPer dedupe post _ u L hL hfull

def wBobX : Comment := ⟨some "bob", none, none, some "x", none, none⟩

def wBobY : Comment := ⟨none, some "bob", none, none, some "y", none⟩

def wBobZ : Comment := ⟨none, none, some "bob", none, none, some "z"⟩

theorem bundle_per_author_cap_witness :
    dlookup (bundle_seed_comments [wBobX, wBobY] 2 true) "bob" =
        some ["x", "y"] ∧
    (2 : Nat) ≤ (["x", "y"] : List String).length ∧
    dlookup (bundle_seed_comments ([wBobX, wBobY] ++ [wBobZ]) 2 true) "bob" =
        some ["x", "y"] ∧
    (["x", "y"] : List String).length ≤ 2 :=
  ⟨by decide, by decide,
   (bundle_per_author_cap 2 true).2 [wBobX, wBobY] [wBobZ] "bob" ["x", "y"]
     (by decide) (by decide),
   (bundle_per_author_cap 2 true).1 [wBobX, wBobY] "bob" ["x", "y"]
     (by decide)⟩

theorem bundleStep_nodup_values {maxPer : Nat}
    {m : List (String × List String)} (c : Comment)
    (hm : ∀ k L, dlookup m k = some L → L.Nodup) :
    ∀ k L, dlookup (bundleStep maxPer true m c) k = some L → L.Nodup := by
  unfold bundleStep
  split
  · exact hm
  · rename_i u' _
    split
    · exact hm
    · cases hcur : dlookup m u' with
      | some v =>
        have hget : ddGet m u' = (v, m) := by simp [ddGet, hcur]
        rw [hget]
        split
        · exact hm
        · split
          · exact hm
          · rename_i hdup
            intro k L h0
            by_cases hk : k = u'
            · subst hk
              rw [dlookup_dset_self hcur] at h0
              cases h0
              have hv : v.Nodup := hm k v hcur
              have hnm : resolve_text c ∉ v := by
                intro hmem
                exact hdup ⟨rfl, hmem⟩
              show ((v, m).1 ++ [resolve_text c]).Nodup
              simp [List.nodup_append, hv, hnm]
            · rw [dlookup_dset_of_ne m (fun he => hk he.symm)] at h0
              exact hm k L h0
      | none =>
        have hget : ddGet m u' = ([], m ++ [(u', [])]) := by
          simp [ddGet, hcur]
        have hm1 : ∀ k L, dlookup (m ++ [(u', [])]) k = some L → L.Nodup := by
          intro k L h0
          rw [dlookup_append] at h0
          cases hc : dlookup m k with
          | some v0 => rw [hc] at h0; cases h0; exact hm k _ hc
          | none =>
            rw [hc] at h0
            by_cases hk : u' = k <;> simp [dlookup, hk] at h0
            subst h0; simp
        have hlook : dlookup (m ++ [(u', [])]) u' = some [] := by
          rw [dlookup_append, hcur]
          simp [dlookup]
        rw [hget]
        split
        · exact hm1
        · split
          · exact hm1
          · intro k L h0
            by_cases hk : k = u'
            · subst hk
              rw [dlookup_dset_self hlook] at h0
              cases h0
              show ((([] : List String), m ++ [(k, [])]).1 ++
                [resolve_text c]).Nodup
              simp
            · rw [dlookup_dset_of_ne _ (fun he => hk he.symm)] at h0
              exact hm1 k L h0

theorem bundleFold_nodup_values (maxPer : Nat) :
    ∀ (items : List Comment) (m : List (String × List String)),
      (∀ k L, dlookup m k = some L → L.Nodup) →
      ∀ k L, dlookup (items.foldl (bundleStep maxPer true) m) k = some L →
        L.Nodup := by
  intro items
  induction items with
  | nil => intro m hm; simpa using hm
  | cons c rest ih =>
    intro m hm
    exact ih (bundleStep maxPer true m c) (bundleStep_nodup_values c hm)

/-- Claim C6: two items from the same author with the same non-empty text
bundle to one stored copy with `dedupe=True` and to two with
`dedupe=False` (the cap permitting); and with dedupe enabled a text equal
to an already-stored entry of the same author is never appended (every
stored list is duplicate-free). -/
theorem bundle_dedupe_semantics (c1 c2 : Comment) (u t : String)
    (maxPer : Nat) (h1 : resolve_username c1 = some u)
    (h2 : resolve_text c1 = t) (h3 : resolve_username c2 = some u)
    (h4 : resolve_text c2 = t) (ht : t ≠ "") :
    (1 ≤ maxPer → bundle_seed_comments [c1, c2] maxPer true = [(u, [t])])
    ∧ (2 ≤ maxPer → bundle_seed_comments [c1, c2] maxPer false = [(u, [t, t])])
    ∧ (∀ (items : List Comment) (u' : String) (L : List String),
        dlookup (bundle_seed_comments items maxPer true) u' = some L →
        L.Nodup) := by
  have hget0 : ddGet [] u = ([], [(u, [])]) := by simp [ddGet, dlookup]
  have hstep1 : ∀ d, 1 ≤ maxPer →
      bundleStep maxPer d [] c1 = [(u, [t])] := by
    intro d hmax
    unfold bundleStep
    split
    · rename_i heq
      simp [h1] at heq
    · rename_i u0 heq
      rw [h1] at heq
      injection heq with hu
      subst hu
      rw [h2, if_neg ht, hget0]
      have hmax' : ¬ maxPer = 0 := by omega
      simp [dset, Nat.le_zero, hmax']
  have hget1 : ddGet [(u, [t])] u = ([t], [(u, [t])]) := by
    simp [ddGet, dlookup]
  refine ⟨?_, ?_, ?_⟩
  · intro hmax
    show List.foldl (bundleStep maxPer true) [] [c1, c2] = [(u, [t])]
    simp only [List.foldl_cons, List.foldl_nil, hstep1 true hmax]
    unfold bundleStep
    split
    · rename_i heq
      simp [h3] at heq
    · rename_i u0 heq
      rw [h3] at heq
      injection heq with hu
      subst hu
      rw [h4, if_neg ht, hget1]
      by_cases hcap : maxPer ≤ 1 <;> simp [hcap]
  · intro hmax
    show List.foldl (bundleStep maxPer false) [] [c1, c2] = [(u, [t, t])]
    simp only [List.foldl_cons, List.foldl_nil, hstep1 false (by omega)]
    unfold bundleStep
    split
    · rename_i heq
      simp [h3] at heq
    · rename_i u0 heq
      rw [h3] at heq
      injection heq with hu
      subst hu
      rw [h4, if_neg ht, hget1]
      have hcap : ¬ maxPer ≤ 1 := by omega
      simp [hcap, dset]
  · intro items u' L h
    exact bundleFold_nodup_values maxPer items []
      (by intro k L0 h0; simp [dlookup] at h0) u' L h

def wAliceHi : Comment := ⟨some "alice", none, none, some "hi", none, none⟩

def wAliceHi2 : Comment := ⟨none, some "alice", none, none, some "hi", none⟩

theorem bundle_dedupe_semantics_witness :
    bundle_seed_comments [wAliceHi, wAliceHi2] 5 true = [("alice", ["hi"])]
    ∧ bundle_seed_comments [wAliceHi, wAliceHi2] 5 false =
        [("alice", ["hi", "hi"])]
    ∧ (["hi"] : List String).Nodup := by
  have h := bundle_dedupe_semantics wAliceHi wAliceHi2 "alice" "hi" 5
    (by decide) (by decide) (by decide) (by decide) (by decide)
  exact ⟨h.1 (by decide), h.2.1 (by decide),
    h.2.2 [wAliceHi, wAliceHi2] "alice" ["hi"] (by decide)⟩

/-- Claim C10: with `maxPerUser = 0`, an item with a resolvable author and
non-empty text still creates the author's key (bound to an empty list):
the cap check's defaultdict access inserts the entry before `continue`. -/
theorem bundle_zero_cap_creates_key (c : Comment) (u : String)
    (dedupe : Bool) (h1 : resolve_username c = some u)
    (ht : resolve_text c ≠ "") :
    bundle_seed_comments [c] 0 dedupe = [(u, [])] := by
  show List.foldl (bundleStep 0 dedupe) [] [c] = [(u, [])]
  simp only [List.foldl_cons, List.foldl_nil]
  unfold bundleStep
  split
  · rename_i heq
    simp [h1] at heq
  · rename_i u0 heq
    rw [h1] at heq
    injection heq with hu
    subst hu
    rw [if_neg ht]
    have hget0 : ddGet [] u = ([], [(u, [])]) := by simp [ddGet, dlookup]
    rw [hget0]
    simp

theorem bundle_zero_cap_creates_key_witness :
    bundle_seed_comments [wBobX] 0 true = [("bob", [])] :=
  bundle_zero_cap_creates_key wBobX "bob" true (by decide) (by decide)

/-! ## C2: retry exhaustion in RedditScraper._get -/

theorem getLoop_all_retry {α : Type} (maxRetries : Nat) (resp : Nat → Resp α)
    (hall : ∀ k,
      (retryStatus (resp k).status || authGateStatus (resp k).status) = true)
    (attempt : Nat) (h : attempt ≤ maxRetries) :
    getLoop maxRetries resp attempt =
      (.error (resp (maxRetries + 1)).status, maxRetries + 1) := by
  rw [getLoop]
  simp only [hall (attempt + 1), if_true]
  by_cases hc : maxRetries < attempt + 1
  · have hEq : attempt = maxRetries := by omega
    subst hEq
    simp [hc]
  · rw [if_neg hc]
    exact getLoop_all_retry maxRetries resp hall (attempt + 1) (by omega)
termination_by maxRetries + 1 - attempt
decreasing_by omega

/-- Claim C2: against an endpoint whose every response has a retryable
status (429, 500, 502, 503, 504, or the auth-gate 401/403), `_get` with
`max_retries = n` performs exactly `n + 1` HTTP requests and then raises
the HTTP error of the last response, unmodified.  In particular
`max_retries = 3` against constant 503 gives 4 requests. -/
theorem reddit_get_retry_exhaustion {α : Type} (maxRetries : Nat)
    (resp : Nat → Resp α)
    (hall : ∀ k,
      (retryStatus (resp k).status || authGateStatus (resp k).status) = true) :
    reddit_get maxRetries resp =
      (.error (resp (maxRetries + 1)).status, maxRetries + 1) :=
  getLoop_all_retry maxRetries resp hall 0 (Nat.zero_le _)

theorem reddit_get_retry_exhaustion_witness :
    reddit_get 3 (fun _ => ({ status := 503, body := 0 } : Resp Nat)) =
      (.error 503, 4) :=
  reddit_get_retry_exhaustion 3 _ (fun _ => by decide)

/-! ## C4: enrichment skip accounting -/

theorem enrichFold_shift {ε : Type} (fetch : String → Except ε (List Post))
    (uc : List (String × List String)) (sampled : List String)
    (b0 : List Bundle) (s0 : Nat) :
    enrichFold fetch uc sampled (b0, s0) =
      (b0 ++ (enrichFold fetch uc sampled ([], 0)).1,
       s0 + (enrichFold fetch uc sampled ([], 0)).2) := by
  induction sampled generalizing b0 s0 with
  | nil => simp [enrichFold]
  | cons u rest ih =>
    cases henr : enrichStep fetch uc u with
    | some b =>
      simp only [enrichFold, henr, List.nil_append]
      rw [ih (b0 ++ [b]) s0, ih [b] 0]
      simp [List.append_assoc]
    | none =>
      simp only [enrichFold, henr]
      rw [ih b0 (s0 + 1), ih [] 1]
      simp only [List.nil_append, Prod.mk.injEq, true_and]
      omega

/-- Claim C4: after enrichment the number of emitted bundles plus the
skipped count equals the number of sampled ids, whatever each per-user
fetch returned; and a raised per-user exception only increments the skip
count, leaving the processing of the remaining users unchanged. -/
theorem enrich_skip_accounting {ε : Type}
    (fetch : String → Except ε (List Post)) (sampled : List String)
    (uc : List (String × List String)) :
    ((enrich_with_captions fetch sampled uc).1.length
      + (enrich_with_captions fetch sampled uc).2 = sampled.length)
    ∧ (∀ (u : String) (rest : List String) (e : ε), fetch u = .error e →
        enrich_with_captions fetch (u :: rest) uc =
          ((enrich_with_captions fetch rest uc).1,
           (enrich_with_captions fetch rest uc).2 + 1)) := by
  constructor
  · induction sampled with
    | nil => simp [enrich_with_captions, enrichFold]
    | cons u rest ih =>
      show (enrichFold fetch uc (u :: rest) ([], 0)).1.length
          + (enrichFold fetch uc (u :: rest) ([], 0)).2 = (u :: rest).length
      simp only [enrich_with_captions] at ih
      cases henr : enrichStep fetch uc u with
      | some b =>
        simp only [enrichFold, henr, List.nil_append]
        rw [enrichFold_shift fetch uc rest [b] 0]
        simp only [List.length_append, List.length_singleton,
          List.length_cons, List.length_nil]
        omega
      | none =>
        simp only [enrichFold, henr]
        rw [enrichFold_shift fetch uc rest [] 1]
        simp only [List.nil_append, List.length_cons]
        omega
  · intro u rest e hfe
    show enrichFold fetch uc (u :: rest) ([], 0) = _
    have hstep : enrichStep fetch uc u = none := by
      simp [enrichStep, hfe]
    simp only [enrichFold, hstep]
    rw [enrichFold_shift fetch uc rest [] 1]
    simp only [List.nil_append, enrich_with_captions, Prod.mk.injEq, true_and]
    omega

def wFetchFail : String → Except Unit (List Post) := fun _ => .error ()

theorem enrich_skip_accounting_witness :
    ((enrich_with_captions wFetchFail ["u1", "u2"] []).1.length
      + (enrich_with_captions wFetchFail ["u1", "u2"] []).2 = 2)
    ∧ enrich_with_captions wFetchFail ["u1", "u2"] [] =
        ((enrich_with_captions wFetchFail ["u2"] []).1,
         (enrich_with_captions wFetchFail ["u2"] []).2 + 1) :=
  ⟨(enrich_skip_accounting wFetchFail ["u1", "u2"] []).1,
   (enrich_skip_accounting wFetchFail ["u1", "u2"] []).2 "u1" ["u2"] () rfl⟩

/-! ## C7: sampler lemmas -/

theorem sampleAux_length (rng : Nat → Nat) :
    ∀ (k : Nat) (step : Nat) (pop : List String), k ≤ pop.length →
      (sampleAux rng step pop k).length = k := by
  intro k
  induction k with
  | zero => intro step pop _; cases pop <;> rfl
  | succ k ih =>
    intro step pop hk
    cases pop with
    | nil => simp at hk
    | cons p ps =>
      simp only [List.length_cons] at hk
      simp only [sampleAux, List.length_cons]
      have hlt : rng step % (ps.length + 1) < (p :: ps).length := by
        simpa using Nat.mod_lt (rng step) (Nat.succ_pos ps.length)
      rw [ih (step + 1) _ (by
        rw [List.length_eraseIdx_of_lt hlt]
        simp only [List.length_cons]
        omega)]

theorem sampleAux_subset (rng : Nat → Nat) :
    ∀ (k : Nat) (step : Nat) (pop : List String),
      ∀ x ∈ sampleAux rng step pop k, x ∈ pop := by
  intro k
  induction k with
  | zero => intro step pop x hx; simp [sampleAux] at hx
  | succ k ih =>
    intro step pop x hx
    cases pop with
    | nil => simp [sampleAux] at hx
    | cons p ps =>
      simp only [sampleAux, List.mem_cons] at hx
      rcases hx with hx | hx
      · subst hx
        exact (p :: ps).get_mem _ _
      · exact (List.eraseIdx_sublist _ _).subset (ih (step + 1) _ x hx)

theorem get_not_mem_eraseIdx :
    ∀ (l : List String) (i : Fin l.length), l.Nodup →
      l.get i ∉ l.eraseIdx i.val := by
  intro l
  induction l with
  | nil => intro i; exact absurd i.isLt (by simp)
  | cons a t ih =>
    intro i hnd
    rcases i with ⟨iv, hlt⟩
    cases iv with
    | zero =>
      simpa [List.eraseIdx] using (List.nodup_cons.1 hnd).1
    | succ j =>
      simp only [List.eraseIdx, List.get, List.mem_cons, not_or]
      constructor
      · intro he
        exact (List.nodup_cons.1 hnd).1
          (he ▸ t.get_mem _ _)
      · exact ih ⟨j, by simpa using hlt⟩ (List.nodup_cons.1 hnd).2

theorem sampleAux_nodup (rng : Nat → Nat) :
    ∀ (k : Nat) (step : Nat) (pop : List String), pop.Nodup →
      (sampleAux rng step pop k).Nodup := by
  intro k
  induction k with
  | zero => intro step pop _; simp [sampleAux]
  | succ k ih =>
    intro step pop hnd
    cases pop with
    | nil => simp [sampleAux]
    | cons p ps =>
      simp only [sampleAux, List.nodup_cons]
      refine ⟨fun hmem => ?_, ih (step + 1) _
        (hnd.sublist (List.eraseIdx_sublist _ _))⟩
      exact get_not_mem_eraseIdx (p :: ps) _ hnd
        (sampleAux_subset rng k (step + 1) _ _ hmem)

theorem eligible_nodup {m : List (String × List String)} {minC : Nat}
    (hkeys : (dkeys m).Nodup) : (eligible_users m minC).Nodup := by
  unfold eligible_users
  exact hkeys.sublist ((List.filter_sublist m).map Prod.fst)

theorem mem_eligible_lookup {m : List (String × List String)}
    {minC : Nat} {u : String} (hkeys : (dkeys m).Nodup)
    (hu : u ∈ eligible_users m minC) :
    ∃ L, dlookup m u = some L ∧ minC ≤ L.length := by
  unfold eligible_users at hu
  rcases List.mem_map.1 hu with ⟨p, hpmem, hpu⟩
  rcases List.mem_filter.1 hpmem with ⟨hpm, hplen⟩
  refine ⟨p.2, ?_, by simpa using hplen⟩
  rw [← hpu]
  exact dlookup_of_mem_nodup hpm hkeys

/-- Claim C7: the sampler returns exactly `min(sample_size, |eligible|)`
usernames, pairwise distinct, each of them eligible (its comment list
meets the `min_comments` threshold), for any dict (unique keys) and any
random stream. -/
theorem sample_usernames_spec (rng : Nat → Nat)
    (m : List (String × List String)) (sampleSize minC : Nat)
    (hkeys : (dkeys m).Nodup) :
    (sample_usernames rng m sampleSize minC).length =
      min sampleSize (eligible_users m minC).length
    ∧ (sample_usernames rng m sampleSize minC).Nodup
    ∧ ∀ u ∈ sample_usernames rng m sampleSize minC,
        ∃ L, dlookup m u = some L ∧ minC ≤ L.length := by
  refine ⟨?_, ?_, ?_⟩
  · exact sampleAux_length rng _ 0 _ (Nat.min_le_right _ _)
  · exact sampleAux_nodup rng _ 0 _ (eligible_nodup hkeys)
  · intro u hu
    exact mem_eligible_lookup hkeys (sampleAux_subset rng _ 0 _ u hu)

theorem sample_usernames_spec_witness :
    (dkeys [("alice", ["a1"]), ("bob", ["b1", "b2"])]).Nodup
    ∧ (sample_usernames (fun _ => 0)
        [("alice", ["a1"]), ("bob", ["b1", "b2"])] 1 1).length = 1
    ∧ (sample_usernames (fun _ => 0)
        [("alice", ["a1"]), ("bob", ["b1", "b2"])] 1 1).Nodup := by
  have h := sample_usernames_spec (fun _ => 0)
    [("alice", ["a1"]), ("bob", ["b1", "b2"])] 1 1 (by decide)
  exact ⟨by decide, h.1, h.2.1⟩

/-! ## C8: discovery invariants

`GoodAcc` is the loop invariant of the discovery walk: by construction the
accumulated username list is duplicate-free, free of the `"[deleted]"`
sentinel, and strictly below `max_users` (except at the very start, where
it is empty — with `max_users = 0` the loop body can still admit one
author before its post-append break fires).  `GoodRes` is the
corresponding property of any value the walk returns. -/

def GoodAcc (maxU : Nat) (acc : List String) : Prop :=
  acc.Nodup ∧ (∀ a ∈ acc, pyLower a ≠ "[deleted]")
    ∧ (acc.length < maxU ∨ acc = [])

def GoodRes (maxU : Nat) (l : List String) : Prop :=
  l.Nodup ∧ (∀ a ∈ l, pyLower a ≠ "[deleted]")
    ∧ l.length ≤ max maxU 1 ∧ (1 ≤ maxU → l.length ≤ maxU)

theorem safe_author_spec {a? : Option String} {a : String}
    (h : safe_author a? = some a) : pyLower a ≠ "[deleted]" := by
  unfold safe_author at h
  split at h
  · cases h
  · split at h
    · cases h
    · split at h
      · cases h
      · rename_i hdel
        injection h with ha
        subst ha
        exact hdel

theorem goodAcc_res {maxU : Nat} {acc : List String}
    (h : GoodAcc maxU acc) : GoodRes maxU acc := by
  obtain ⟨h1, h2, h3⟩ := h
  refine ⟨h1, h2, ?_, ?_⟩ <;> rcases h3 with h3 | h3
  · omega
  · subst h3; simp
  · omega
  · subst h3; simp

theorem goodRes_to_acc {maxU : Nat} {l : List String}
    (h : GoodRes maxU l) (hlen : ¬ maxU ≤ l.length) : GoodAcc maxU l :=
  ⟨h.1, h.2.1, Or.inl (by omega)⟩

theorem goodRes_snoc {maxU : Nat} {acc : List String} {a : String}
    (h : GoodAcc maxU acc) (ha : pyLower a ≠ "[deleted]") (hnm : a ∉ acc) :
    GoodRes maxU (acc ++ [a]) := by
  obtain ⟨h1, h2, h3⟩ := h
  refine ⟨?_, ?_, ?_, ?_⟩
  · simp [List.nodup_append, h1, hnm]
  · intro x hx
    rcases List.mem_append.1 hx with hx | hx
    · exact h2 x hx
    · simp at hx; subst hx; exact ha
  · rcases h3 with h3 | h3
    · simp only [List.length_append, List.length_singleton]; omega
    · subst h3; simp
  · intro hm
    rcases h3 with h3 | h3
    · simp only [List.length_append, List.length_singleton]; omega
    · subst h3; simpa using hm

theorem commentScan_good (maxU : Nat) :
    ∀ (cs : List CEntry) (acc : List String), GoodAcc maxU acc →
      GoodRes maxU (commentScan maxU cs acc) := by
  intro cs
  induction cs with
  | nil => intro acc hacc; exact goodAcc_res hacc
  | cons c rest ih =>
    intro acc hacc
    unfold commentScan
    split
    · rename_i a hsa
      split
      · exact ih acc hacc
      · split
        · rename_i hnm _
          exact goodRes_snoc hacc (safe_author_spec hsa) hnm
        · rename_i hnm hlen
          exact ih _ (goodRes_to_acc
            (goodRes_snoc hacc (safe_author_spec hsa) hnm) hlen)
    · exact ih acc hacc

/-- The property guaranteed for an `ok` outcome of one loop iteration. -/
def GoodOut (maxU : Nat) : StepOut → Prop
  | .halt l => GoodRes maxU l
  | .cont acc => GoodAcc maxU acc

theorem discComments_good {cf : String → Except Unit CommentsJson}
    {maxU : Nat} {pid? : Option String} {acc : List String}
    (hacc : GoodAcc maxU acc) :
    ∀ out, discComments cf maxU pid? acc = .ok out → GoodOut maxU out := by
  intro out h
  unfold discComments at h
  split at h
  · injection h with hout
    subst hout
    exact hacc
  · rename_i pid
    split at h
    · cases h
    · rename_i cj _
      split at h
      · injection h with hout
        subst hout
        exact commentScan_good maxU (parseComments cj) acc hacc
      · rename_i hlen
        injection h with hout
        subst hout
        exact goodRes_to_acc
          (commentScan_good maxU (parseComments cj) acc hacc) hlen

theorem discStep_good {cf : String → Except Unit CommentsJson}
    {maxU : Nat} {p : PEntry} {acc : List String}
    (hacc : GoodAcc maxU acc) :
    ∀ out, discStep cf maxU p acc = .ok out → GoodOut maxU out := by
  intro out h
  unfold discStep at h
  split at h
  · rename_i a hsa
    split at h
    · exact discComments_good hacc out h
    · split at h
      · rename_i hnm _
        injection h with hout
        subst hout
        exact goodRes_snoc hacc (safe_author_spec hsa) hnm
      · rename_i hnm hlen
        exact discComments_good
          (goodRes_to_acc (goodRes_snoc hacc (safe_author_spec hsa) hnm)
            hlen) out h
  · exact discComments_good hacc out h

theorem discGo_good (cf : String → Except Unit CommentsJson) (maxU : Nat) :
    ∀ (ps : List PEntry) (acc l : List String), GoodAcc maxU acc →
      discGo cf maxU ps acc = .ok l → GoodRes maxU l := by
  intro ps
  induction ps with
  | nil =>
    intro acc l hacc h
    unfold discGo at h
    injection h with hl
    subst hl
    exact goodAcc_res hacc
  | cons p ps ih =>
    intro acc l hacc h
    unfold discGo at h
    split at h
    · cases h
    · rename_i lHalt heq
      injection h with hl
      subst hl
      exact discStep_good hacc _ heq
    · rename_i accC heq
      exact ih accC l (discStep_good hacc _ heq) h

/-- The discovery state starts empty, so every successful walk returns a
`GoodRes` list. -/
theorem discoverUsers_good {r : RedditRemote} {maxU : Nat}
    {l : List String} (h : discoverUsers r maxU = .ok l) :
    GoodRes maxU l := by
  unfold discoverUsers at h
  split at h
  · cases h
  · split at h
    · cases h
    · exact discGo_good r.comments maxU _ [] l
        ⟨List.nodup_nil, by simp, Or.inr rfl⟩ h

def r8cex : RedditRemote :=
  ⟨.ok [⟨none, some "alice"⟩], .ok [], fun _ => .ok (.wellFormed [])⟩

/-- Claim C8 counterexample: with `max_users = 0` (and a first post whose
author is valid) discovery still collects one username, because the author
is appended before the cap is checked; so the length bound
`length ≤ maxUsers` fails at `maxUsers = 0`. -/
theorem discovery_max_users_zero_cex :
    discoverUsers r8cex 0 = .ok ["alice"]
    ∧ ¬ ((["alice"] : List String).length ≤ 0) :=
  ⟨rfl, by decide⟩

/-- Claim C8 (amended): every successful discovery returns a username list
with no duplicates and without the case-insensitive `"[deleted]"`
sentinel, of length at most `maxUsers` whenever `maxUsers ≥ 1`; for
`maxUsers = 0` the walk can still admit a single author (bound
`max maxUsers 1`). -/
theorem discovery_uniqueness (r : RedditRemote) (maxU : Nat)
    (l : List String) (h : discoverUsers r maxU = .ok l) :
    l.Nodup ∧ (∀ a ∈ l, pyLower a ≠ "[deleted]")
    ∧ l.length ≤ max maxU 1 ∧ (1 ≤ maxU → l.length ≤ maxU) :=
  discoverUsers_good h

def r8wit : RedditRemote :=
  ⟨.ok [⟨some "p1", some "alice"⟩, ⟨none, some "[Deleted]"⟩],
   .ok [⟨none, some "alice"⟩, ⟨none, some "bob"⟩],
   fun _ => .ok (.wellFormed [⟨some "carol"⟩, ⟨some "alice"⟩])⟩

theorem discovery_uniqueness_witness :
    discoverUsers r8wit 3 = .ok ["alice", "carol", "bob"]
    ∧ (["alice", "carol", "bob"] : List String).Nodup
    ∧ (∀ a ∈ (["alice", "carol", "bob"] : List String),
        pyLower a ≠ "[deleted]")
    ∧ (["alice", "carol", "bob"] : List String).length ≤ 3 := by
  have h := discovery_uniqueness r8wit 3 ["alice", "carol", "bob"] rfl
  exact ⟨rfl, h.1, h.2.1, h.2.2.2 (by decide)⟩

/-! ## C1: discovery failure semantics -/

def r1cexA : RedditRemote :=
  ⟨.error (), .ok [⟨none, some "bob"⟩], fun _ => .ok (.wellFormed [])⟩

def r1cexB : RedditRemote :=
  ⟨.ok [⟨some "p1", some "alice"⟩], .ok [], fun _ => .error ()⟩

/-- Claim C1 counterexample: a fetch failure of one seed page
(`r1cexA`: the "hot" listing raises while the "new" listing would have
contributed "bob"), or of one post's child comments (`r1cexB`: "alice"
was already collected when the comments fetch raises), makes the whole
discovery call raise instead of returning the ids collected from the
parts that succeeded — there is no try/except around the discovery-phase
fetches in `get_payload`. -/
theorem discovery_page_failure_aborts :
    discoverUsers r1cexA 5 = .error ()
    ∧ discoverUsers r1cexB 5 = .error () :=
  ⟨rfl, rfl⟩

/-- Claim C1 (amended): a fetch failure for a seed page or a post's child
comments propagates and aborts discovery; what is handled locally is (a) a
malformed child-comments response, parsed as zero children — such a step
is identical to receiving an empty well-formed children list, and a
continuing step lets the walk proceed over the remaining posts — and (b) a
per-user global-activity fetch failure in the payload's second phase,
caught and folded into an empty `global_activity` while every discovered
user is still processed (the output has exactly the discovered usernames). -/
theorem discovery_local_failure_semantics
    (cf : String → Except Unit CommentsJson) (maxU : Nat) (p : PEntry)
    (ps : List PEntry) (acc : List String) (pid : String)
    (hpid : p.id = some pid) (hmal : cf pid = .ok .malformed)
    (ur : UserRemote) (climit plimit : Nat) (uname : String)
    (hufail : ur.userComments uname = .error ())
    (r : RedditRemote) (sub : String) (names : List String)
    (hok : discoverUsers r maxU = .ok names) :
    parseComments CommentsJson.malformed = []
    ∧ discStep cf maxU p acc =
        discStep (fun q => if q = pid then .ok (.wellFormed []) else cf q)
          maxU p acc
    ∧ (∀ acc', discStep cf maxU p acc = .ok (.cont acc') →
        discGo cf maxU (p :: ps) acc = discGo cf maxU ps acc')
    ∧ buildUser ur climit plimit uname = ⟨uname, emptyActivity⟩
    ∧ get_payload r ur sub maxU climit plimit =
        .ok ⟨sub, names.map (buildUser ur climit plimit)⟩
    ∧ (names.map (buildUser ur climit plimit)).map RUser.username = names := by
  have hcom : ∀ acc0 : List String, discComments cf maxU p.id acc0 =
      discComments (fun q => if q = pid then .ok (.wellFormed []) else cf q)
        maxU p.id acc0 := by
    intro acc0
    simp [discComments, hpid, hmal, parseComments]
  refine ⟨rfl, ?_, ?_, ?_, ?_, ?_⟩
  · unfold discStep
    cases hsa : safe_author p.author with
    | none => exact hcom acc
    | some a =>
      by_cases hmem : a ∈ acc
      · simp only [if_pos hmem]
        exact hcom acc
      · simp only [if_neg hmem]
        by_cases hcap : maxU ≤ (acc ++ [a]).length
        · simp only [if_pos hcap]
        · simp only [if_neg hcap]
          exact hcom _
  · intro acc' hstep
    conv_lhs => rw [discGo]
    rw [hstep]
  · unfold buildUser
    rw [hufail]
  · unfold get_payload
    rw [hok]
  · have husr : ∀ un, (buildUser ur climit plimit un).username = un := by
      intro un
      unfold buildUser
      split
      · rfl
      · split <;> rfl
    rw [List.map_map, show RUser.username ∘ buildUser ur climit plimit = id
      from funext husr, List.map_id]

def cf1wit : String → Except Unit CommentsJson := fun _ => .ok .malformed

def cf1witZero : String → Except Unit CommentsJson :=
  fun q => if q = "p1" then .ok (.wellFormed []) else cf1wit q

def p1wit : PEntry := ⟨some "p1", some "alice"⟩

def r1wit : RedditRemote := ⟨.ok [p1wit], .ok [], cf1wit⟩

def ur1wit : UserRemote := ⟨fun _ => .error (), fun _ => .error ()⟩

theorem discovery_local_failure_semantics_witness :
    parseComments CommentsJson.malformed = []
    ∧ discStep cf1wit 5 p1wit [] = discStep cf1witZero 5 p1wit []
    ∧ discGo cf1wit 5 [p1wit] [] = discGo cf1wit 5 [] ["alice"]
    ∧ buildUser ur1wit 2 2 "alice" = ⟨"alice", emptyActivity⟩
    ∧ get_payload r1wit ur1wit "seed" 5 2 2 =
        .ok ⟨"seed", [⟨"alice", emptyActivity⟩]⟩
    ∧ ([⟨"alice", emptyActivity⟩] : List RUser).map RUser.username =
        ["alice"] := by
  have h := discovery_local_failure_semantics cf1wit 5 p1wit [] [] "p1"
    rfl rfl ur1wit 2 2 "alice" rfl r1wit "seed" ["alice"] rfl
  exact ⟨h.1, h.2.1, h.2.2.1 ["alice"] rfl, h.2.2.2.1, h.2.2.2.2.1,
    h.2.2.2.2.2⟩

/-! ## C3: idempotent caching in the Apify client -/

theorem isPrefixOf_append (l k : List Char) :
    l.isPrefixOf (l ++ k) = true := by
  induction l with
  | nil => simp [List.isPrefixOf]
  | cons c cs ih => simp [List.isPrefixOf, ih]

theorem pyStartswith_cached (k : String) :
    pyStartswith ("cached:" ++ k) "cached:" = true := by
  show ("cached:".data).isPrefixOf (("cached:" ++ k).data) = true
  rw [String.data_append]
  exact isPrefixOf_append _ _

theorem afterFirstColon_cached (k : String) :
    afterFirstColon ("cached:" ++ k) = k := by
  show String.mk (afterFirstColonAux (("cached:" ++ k).data)) = k
  rw [String.data_append]
  simp [afterFirstColonAux]

/-- Claim C3: once a `run_and_get_items` call with caching enabled has
succeeded, the deterministic cache key holds its items, and a second
submission with identical parameters takes the cached branch: the same
item list is returned with zero HTTP requests; `run_actor` returns the
synthetic `"cached:"` handle with zero requests, `wait_for_run` passes it
through immediately, and `get_dataset_items` resolves it to the same
items from the cache, again with zero requests. -/
theorem run_and_get_items_idempotent {Item Inp : Type}
    (ck : String → Inp → String) (rm : ApifyRemote Item Inp)
    (cache : Cache Item) (a : String) (i : Inp) (fuel : Nat)
    (items : List Item) (cache' : Cache Item) (n : Nat)
    (h : run_and_get_items ck rm cache a i true fuel =
      (.ok items, cache', n)) :
    (∀ fuel', run_and_get_items ck rm cache' a i true fuel' =
      (.ok items, cache', 0))
    ∧ run_actor ck rm cache' a i true = (.ok ("cached:" ++ ck a i), 0)
    ∧ (∀ fuel', wait_for_run rm ("cached:" ++ ck a i) fuel' =
        (.ok ("cached:" ++ ck a i), 0))
    ∧ get_dataset_items rm cache' ("cached:" ++ ck a i) none 0 =
        (.ok items, 0) := by
  have hkey : cache' (ck a i) = some items := by
    simp only [run_and_get_items, if_true] at h
    split at h
    · rename_i items0 heq
      simp only [Prod.mk.injEq] at h
      obtain ⟨hi, hc, _⟩ := h
      injection hi with hi
      rw [← hc, heq, hi]
    · split at h
      · simp only [Prod.mk.injEq] at h
        exact absurd h.1 (by simp)
      · split at h
        · simp only [Prod.mk.injEq] at h
          exact absurd h.1 (by simp)
        · split at h
          · simp only [Prod.mk.injEq] at h
            exact absurd h.1 (by simp)
          · rename_i items2 _
            simp only [Prod.mk.injEq] at h
            obtain ⟨hi, hc, _⟩ := h
            injection hi with hi
            rw [← hc]
            simp [cacheSave, hi]
  refine ⟨?_, ?_, ?_, ?_⟩
  · intro fuel'
    simp [run_and_get_items, hkey]
  · simp [run_actor, hkey]
  · intro fuel'
    simp [wait_for_run, pyStartswith_cached]
  · simp [get_dataset_items, pyStartswith_cached, afterFirstColon_cached,
      hkey, truthyNat]

def ck3wit : String → String → String := fun a i => a ++ "|" ++ i

def rm3wit : ApifyRemote Nat String :=
  ⟨fun _ _ => ⟨201, "run1"⟩, fun _ _ => .ok ("SUCCEEDED", "ds1"),
   fun _ _ _ => .ok [7]⟩

def cache3wit : Cache Nat := fun _ => none

def cache3sav : Cache Nat := cacheSave cache3wit (ck3wit "actor" "input") [7]

theorem run_and_get_items_idempotent_witness :
    run_and_get_items ck3wit rm3wit cache3sav "actor" "input" true 1 =
      (.ok [7], cache3sav, 0)
    ∧ run_actor ck3wit rm3wit cache3sav "actor" "input" true =
      (.ok ("cached:" ++ ck3wit "actor" "input"), 0)
    ∧ wait_for_run rm3wit ("cached:" ++ ck3wit "actor" "input") 1 =
      (.ok ("cached:" ++ ck3wit "actor" "input"), 0)
    ∧ get_dataset_items rm3wit cache3sav
        ("cached:" ++ ck3wit "actor" "input") none 0 = (.ok [7], 0) := by
  have h := run_and_get_items_idempotent ck3wit rm3wit cache3wit
    "actor" "input" 1 [7] cache3sav 3 rfl
  exact ⟨h.1 1, h.2.1, h.2.2.1 1, h.2.2.2⟩

/-! ## C9: pipeline transition guards -/

theorem sampleAux_zero (rng : Nat → Nat) (step : Nat) (pop : List String) :
    sampleAux rng step pop 0 = [] := by
  cases pop <;> rfl

/-- Claim C9: the pipeline raises its top-level `ApifyError` when the seed
yields zero raw items (no seed posts / no comments) and when bundling
yields an empty author mapping, but a sample of size zero is not an
error: enrichment runs over the empty list (returning `([], 0)`, i.e.
zero skips) and the pipeline completes with an empty bundle list. -/
theorem scrape_pipeline_guards (w : IgWorld) (seed : String)
    (sampleSize maxCpu : Nat) :
    (w.profilePosts = .ok [] →
      scrape_instagram w seed sampleSize maxCpu =
        .error ("No posts found for seed account @" ++ seed))
    ∧ (∀ sp, w.profilePosts = .ok sp → sp ≠ [] →
        extract_post_urls sp ≠ [] →
        w.postComments (extract_post_urls sp) = .ok [] →
        scrape_instagram w seed sampleSize maxCpu =
          .error "No comments found on seed posts")
    ∧ (∀ sp cs, w.profilePosts = .ok sp → sp ≠ [] →
        extract_post_urls sp ≠ [] →
        w.postComments (extract_post_urls sp) = .ok cs → cs ≠ [] →
        bundle_seed_comments cs maxCpu true = [] →
        scrape_instagram w seed sampleSize maxCpu =
          .error "No valid comments found after bundling")
    ∧ (∀ (f : String → Except String (List Post))
        (uc : List (String × List String)),
        enrich_with_captions f [] uc = ([], 0))
    ∧ (∀ sp cs, w.profilePosts = .ok sp → sp ≠ [] →
        extract_post_urls sp ≠ [] →
        w.postComments (extract_post_urls sp) = .ok cs → cs ≠ [] →
        bundle_seed_comments cs maxCpu true ≠ [] → sampleSize = 0 →
        scrape_instagram w seed sampleSize maxCpu = .ok []) := by
  refine ⟨?_, ?_, ?_, ?_, ?_⟩
  · intro h0
    simp [scrape_instagram, h0]
  · intro sp h1 h2 h3 h4
    simp [scrape_instagram, h1, h2, h3, h4]
  · intro sp cs h1 h2 h3 h4 h5 h6
    simp [scrape_instagram, h1, h2, h3, h4, h5, h6]
  · intro f uc
    rfl
  · intro sp cs h1 h2 h3 h4 h5 h6 h7
    subst h7
    simp [scrape_instagram, h1, h2, h3, h4, h5, h6, sample_usernames,
      sampleAux_zero, enrich_with_captions, enrichFold]

def w9post : Post :=
  ⟨false, false, "", .missing, .missing, .missing, some "u1", none, none⟩

def w9comment : Comment := ⟨some "carol", none, none, some "hey", none, none⟩

def w9 : IgWorld :=
  ⟨.ok [w9post], fun _ => .ok [w9comment], fun _ => .ok [], fun _ => 0⟩

theorem scrape_pipeline_guards_witness :
    scrape_instagram w9 "uoft" 0 50 = .ok []
    ∧ enrich_with_captions (fun _ => (.error "down" :
        Except String (List Post))) [] [] = ([], 0) := by
  have h := scrape_pipeline_guards w9 "uoft" 0 50
  exact ⟨h.2.2.2.2 [w9post] [w9comment] rfl (by decide) (by decide) rfl
    (by decide) (by decide) rfl, h.2.2.2.1 _ []⟩

end IdentiVibe
